import Mathlib

/-!
Verification of the plan-reconciliation core of the terraform-plugin-framework
fork: the `markComputedNilsAsUnknown` transform callback, the
`normaliseRequiresReplace` path normalization, the `planResourceChange`
pipeline (all from `internal/proto6server/serve.go`), and the schema
diagnostics from `internal/fwschema/diagnostics.go`.

Machine integers in the Go source are modelled as `Int`/`Nat`; Go errors as
`Except`; the wire-marshalling layer and the user plan-modification callbacks
(external collaborators to the engine) as explicit parameters.
-/

namespace TfFw

mutual
/-- Shallow embedding of `tftypes.Type` (from terraform-plugin-go, the external
value library the engine is built on) together with the attribute-type listing
of object types. The claims only exercise primitive, list and object shapes,
so set/map/tuple types are not modelled. -/
inductive Ty : Type where
  | string : Ty
  | number : Ty
  | bool : Ty
  | list (elem : Ty) : Ty
  | object (atys : TyFields) : Ty

inductive TyFields : Type where
  | nil : TyFields
  | cons (name : String) (ty : Ty) (rest : TyFields) : TyFields
end

deriving instance DecidableEq for Ty, TyFields

mutual
/-- Shallow embedding of `tftypes.Value`: a typed three-state cell. `nullV` and
`unknownV` carry the type (in Go, the `typ` field with a nil / `UnknownValue`
payload); known values carry their payload. Object values keep their attribute
types so that `Val.type` is total, as `(tftypes.Value).Type()` is in Go. -/
inductive Val : Type where
  | nullV (ty : Ty) : Val
  | unknownV (ty : Ty) : Val
  | strV (s : String) : Val
  | numV (n : Int) : Val
  | boolV (b : Bool) : Val
  | listV (elem : Ty) (elems : ValList) : Val
  | objV (atys : TyFields) (fields : ValFields) : Val

inductive ValList : Type where
  | nil : ValList
  | cons (v : Val) (rest : ValList) : ValList

inductive ValFields : Type where
  | nil : ValFields
  | cons (name : String) (v : Val) (rest : ValFields) : ValFields
end

deriving instance DecidableEq for Val, ValList, ValFields

/-- The type of a value, as `(tftypes.Value).Type()` returns it. -/
def Val.type : Val → Ty
  | .nullV ty => ty
  | .unknownV ty => ty
  | .strV _ => .string
  | .numV _ => .number
  | .boolV _ => .bool
  | .listV elem _ => .list elem
  | .objV atys _ => .object atys

/-- Go `(tftypes.Value).IsNull()`. -/
def Val.isNull : Val → Bool
  | .nullV _ => true
  | _ => false

/-- Go `(tftypes.Value).IsKnown()`; aggregates are built from known parts in
this model, as the engine only sees fully-unmarshalled data. -/
def Val.isKnown : Val → Bool
  | .unknownV _ => false
  | _ => true

/-- Field lookup in an object value, as indexing the Go `map[string]Value`. -/
def ValFields.lookup (name : String) : ValFields → Option Val
  | .nil => none
  | .cons n v rest => if n = name then some v else rest.lookup name

/-- Element lookup in a list value by (possibly negative) index, as the Go
bounds check on an `ElementKeyInt` does it. -/
def ValList.get (idx : Int) : ValList → Option Val
  | .nil => none
  | .cons v rest => if idx < 0 then none else if idx = 0 then some v else rest.get (idx - 1)

/-- Shallow embedding of `tftypes.AttributePathStep`: the four step kinds. -/
inductive Step : Type where
  | attributeName (name : String) : Step
  | elementKeyInt (idx : Int) : Step
  | elementKeyString (key : String) : Step
  | elementKeyValue (key : Val) : Step
deriving DecidableEq

/-- An attribute path is its ordered list of steps; `tftypes.AttributePath`
equality (`Equal`) is step-wise structural equality, which is definitional
equality here. -/
abbrev Path := List Step

/-- Rendering of a `tftypes.Type` for `Value.String()` (`Type.String()`).
Object attribute-type listings are abbreviated; no claim depends on them. -/
def Ty.render : Ty → String
  | .string => "tftypes.String"
  | .number => "tftypes.Number"
  | .bool => "tftypes.Bool"
  | .list elem => "tftypes.List[" ++ elem.render ++ "]"
  | .object _ => "tftypes.Object"

/-- Rendering of a `tftypes.Value` by `(tftypes.Value).String()`: the type
rendering followed by the payload in angle brackets. Collection payload
renderings are abbreviated; no claim depends on them. -/
def Val.render : Val → String
  | .nullV ty => ty.render ++ "<null>"
  | .unknownV ty => ty.render ++ "<unknown>"
  | .strV s => "tftypes.String<\"" ++ s ++ "\">"
  | .numV n => "tftypes.Number<" ++ toString n ++ ">"
  | .boolV b => "tftypes.Bool<" ++ toString b ++ ">"
  | .listV elem _ => (Ty.list elem).render ++ "<...>"
  | .objV atys _ => (Ty.object atys).render ++ "<...>"

/-- Rendering of one step inside `(tftypes.AttributePath).String()`. -/
def Step.render : Step → String
  | .attributeName name => "AttributeName(\"" ++ name ++ "\")"
  | .elementKeyInt idx => "ElementKeyInt(" ++ toString idx ++ ")"
  | .elementKeyString key => "ElementKeyString(\"" ++ key ++ "\")"
  | .elementKeyValue key => "ElementKeyValue(" ++ key.render ++ ")"

/-- Embedding of `(tftypes.AttributePath).String()`: the step renderings
joined with `"."`. This string is the sort key of `normaliseRequiresReplace`. -/
def Path.render (p : Path) : String :=
  String.intercalate "." (p.map Step.render)

/-- Diagnostic severity, as in the `diag` package. -/
inductive Severity : Type where
  | error : Severity
  | warning : Severity
deriving DecidableEq

/-- Modelled from the spec: the `diag.Diagnostic` contract (the `diag` package
itself is not among the sources here) — a severity-tagged summary/detail pair
with an optional attribute-path target (spec section 3). -/
structure Diagnostic : Type where
  severity : Severity
  summary : String
  detail : String
  path : Option Path
deriving DecidableEq

/-- An ordered diagnostics ledger, as `diag.Diagnostics`. -/
abbrev Diags := List Diagnostic

/-- Go `diag.Diagnostics.HasError()`: true iff some entry has error severity. -/
def Diags.hasError (ds : Diags) : Bool :=
  ds.any (fun d => d.severity == Severity.error)

/-- Go `diag.Diagnostics.AddError(summary, detail)` appends one error entry
with no path target. -/
def errDiag (summary detail : String) : Diagnostic :=
  { severity := .error, summary := summary, detail := detail, path := none }

/-- Lexicographic comparison of character lists: Go's `<` on strings is
byte-wise lexicographic comparison of their UTF-8 encodings, which agrees
with code-point-wise comparison since UTF-8 preserves code-point order. -/
def charListLt : List Char → List Char → Bool
  | [], [] => false
  | [], _ :: _ => true
  | _ :: _, [] => false
  | a :: as, b :: bs => if a < b then true else if b < a then false else charListLt as bs

/-- Go's `<` on strings, applied to the underlying character sequences. -/
def goStrLt (a b : String) : Bool := charListLt a.data b.data

theorem charListLt_irrefl : ∀ l, charListLt l l = false := by
  intro l
  induction l with
  | nil => rfl
  | cons a as ih => simp [charListLt, lt_irrefl, ih]

theorem charListLt_asymm : ∀ l m, charListLt l m = true → charListLt m l = false := by
  intro l
  induction l with
  | nil =>
    intro m h
    cases m with
    | nil => simpa [charListLt] using h
    | cons b bs => simp [charListLt]
  | cons a as ih =>
    intro m h
    cases m with
    | nil => simpa [charListLt] using h
    | cons b bs =>
      by_cases hab : a < b
      · have hba : ¬ b < a := lt_asymm hab
        simp [charListLt, hab, hba]
      · by_cases hba : b < a
        · simp [charListLt, hab, hba] at h
        · simp only [charListLt, if_neg hab, if_neg hba] at h
          simp only [charListLt, if_neg hab, if_neg hba]
          exact ih bs h

theorem charListLt_trans :
    ∀ l m n, charListLt l m = true → charListLt m n = true → charListLt l n = true := by
  intro l
  induction l with
  | nil =>
    intro m n h₁ h₂
    cases m with
    | nil => simpa [charListLt] using h₁
    | cons b bs =>
      cases n with
      | nil => simpa [charListLt] using h₂
      | cons c cs => simp [charListLt]
  | cons a as ih =>
    intro m n h₁ h₂
    cases m with
    | nil => simpa [charListLt] using h₁
    | cons b bs =>
      cases n with
      | nil => simpa [charListLt] using h₂
      | cons c cs =>
        by_cases hbc : b < c
        · by_cases hab : a < b
          · have hac : a < c := lt_trans hab hbc
            simp [charListLt, hac]
          · by_cases hba : b < a
            · simp [charListLt, hab, hba] at h₁
            · have hab' : a = b := le_antisymm (le_of_not_lt hba) (le_of_not_lt hab)
              subst hab'
              simp [charListLt, hbc]
        · by_cases hcb : c < b
          · simp [charListLt, hbc, hcb] at h₂
          · have hbc' : b = c := le_antisymm (le_of_not_lt hcb) (le_of_not_lt hbc)
            subst hbc'
            by_cases hab : a < b
            · simp [charListLt, hab]
            · by_cases hba : b < a
              · simp [charListLt, hab, hba] at h₁
              · simp only [charListLt, if_neg hab, if_neg hba] at h₁ ⊢
                simp only [charListLt, if_neg (lt_irrefl b)] at h₂
                exact ih bs cs h₁ h₂

theorem charListLt_connex :
    ∀ l m, charListLt l m = false → charListLt m l = false → l = m := by
  intro l
  induction l with
  | nil =>
    intro m h₁ _
    cases m with
    | nil => rfl
    | cons b bs => simp [charListLt] at h₁
  | cons a as ih =>
    intro m h₁ h₂
    cases m with
    | nil => simp [charListLt] at h₂
    | cons b bs =>
      by_cases hab : a < b
      · simp [charListLt, hab] at h₁
      · by_cases hba : b < a
        · simp [charListLt, hba] at h₂
        · have hab' : a = b := le_antisymm (le_of_not_lt hba) (le_of_not_lt hab)
          subst hab'
          simp only [charListLt, if_neg hab, if_neg hba] at h₁ h₂
          rw [ih bs h₁ h₂]

/-- The comparator of `normaliseRequiresReplace` is
`rs[i].String() < rs[j].String()`; sorting by it realizes the non-strict
ordering `pathLe p q`: "`q`'s rendering is not below `p`'s". -/
def pathLe (p q : Path) : Prop := goStrLt (Path.render q) (Path.render p) = false

/-- Strict rendering order between paths. -/
def pathLt (p q : Path) : Prop := goStrLt (Path.render p) (Path.render q) = true

instance : DecidableRel pathLe := fun p q =>
  inferInstanceAs (Decidable (_ = false))

instance : DecidableRel pathLt := fun p q =>
  inferInstanceAs (Decidable (_ = true))

theorem goStrLt_connex {a b : String} (h₁ : goStrLt a b = false)
    (h₂ : goStrLt b a = false) : a = b := by
  apply String.ext
  exact charListLt_connex _ _ h₁ h₂

instance : IsTotal Path pathLe := by
  constructor
  intro p q
  by_cases h : goStrLt (Path.render q) (Path.render p) = true
  · right
    exact charListLt_asymm _ _ h
  · left
    exact Bool.eq_false_iff.mpr h

instance : IsTrans Path pathLe := by
  constructor
  intro a b c h₁ h₂
  by_cases hca : goStrLt (Path.render c) (Path.render a) = true
  · exfalso
    by_cases hab : goStrLt (Path.render a) (Path.render b) = true
    · have := charListLt_trans _ _ _ hca hab
      simp [pathLe, goStrLt, this] at h₂
    · have hab' : Path.render a = Path.render b :=
        goStrLt_connex (Bool.eq_false_iff.mpr hab) h₁
      have h₂' : goStrLt (Path.render c) (Path.render b) = false := h₂
      rw [hab'] at hca
      rw [h₂'] at hca
      simp at hca
  · exact Bool.eq_false_iff.mpr hca

theorem pathLe_render_eq {p q : Path} (h₁ : pathLe p q) (h₂ : pathLe q p) :
    Path.render p = Path.render q :=
  goStrLt_connex h₂ h₁

theorem pathLt_of_pathLe_of_render_ne {p q : Path} (h : pathLe p q)
    (hne : Path.render p ≠ Path.render q) : pathLt p q := by
  by_cases hlt : goStrLt (Path.render p) (Path.render q) = true
  · exact hlt
  · exact absurd (goStrLt_connex (Bool.eq_false_iff.mpr hlt) h) hne

theorem pathLt_irrefl (p : Path) : ¬ pathLt p p := by
  simp [pathLt, goStrLt, charListLt_irrefl]

theorem pathLt_trans {a b c : Path} (h₁ : pathLt a b) (h₂ : pathLt b c) :
    pathLt a c :=
  charListLt_trans _ _ _ h₁ h₂

/-- The deduplication loop of `normaliseRequiresReplace` (serve.go:585-594):
walk the sorted slice keeping an element only when it differs from the last
kept element (`rs[i].Equal(ret[j-1])` skips). `prev` is the last kept path. -/
def dedupAdjacent (prev : Path) : List Path → List Path
  | [] => []
  | p :: rest => if p = prev then dedupAdjacent prev rest else p :: dedupAdjacent p rest

/-- Embedding of `normaliseRequiresReplace` (serve.go:573-596): slices with
fewer than two entries are returned as-is; otherwise the slice is sorted by
the string rendering of each path and adjacent `Equal` entries are collapsed.
Go's `sort.Slice` is modelled by insertion sort over the same comparator: the
two agree on every slice short enough to hit Go's insertion-sort base case
(length < 12), in particular on all concrete inputs considered below, and any
correct comparison sort produces the same output whenever the sort key is
injective on the input's distinct paths. -/
def normaliseRequiresReplace (rs : List Path) : List Path :=
  if rs.length < 2 then rs
  else
    match List.insertionSort pathLe rs with
    | [] => []
    | p :: rest => p :: dedupAdjacent p rest

/-- Nesting modes of nested attributes (`tfsdk.NestingMode`). -/
inductive NestingMode : Type where
  | single : NestingMode
  | listNest : NestingMode
  | setNest : NestingMode
  | mapNest : NestingMode
deriving DecidableEq

mutual
/-- Modelled from the spec: `tfsdk.Attribute` (the `tfsdk` schema package is
not among the sources here; only `serve.go` consumes it). An attribute is
either atomic — it carries a plain type and no sub-schema — or nested, with a
nesting mode and named child attributes; it carries the
required/optional/computed/sensitive flags (spec sections 3 and 4.2). -/
inductive Attr : Type where
  | atomic (ty : Ty) (required optional computed sensitive : Bool) : Attr
  | nested (mode : NestingMode) (children : AttrFields)
      (required optional computed sensitive : Bool) : Attr

inductive AttrFields : Type where
  | nil : AttrFields
  | cons (name : String) (a : Attr) (rest : AttrFields) : AttrFields
end

deriving instance DecidableEq for Attr, AttrFields

/-- The `Computed` flag of an attribute. -/
def Attr.computed : Attr → Bool
  | .atomic _ _ _ c _ => c
  | .nested _ _ _ _ c _ => c

/-- Named-attribute lookup, as indexing the Go `map[string]Attribute`. -/
def AttrFields.lookup (name : String) : AttrFields → Option Attr
  | .nil => none
  | .cons n a rest => if n = name then some a else rest.lookup name

/-- Outcome of `tftypes.WalkAttributePath(config, path)` as seen by
`markComputedNilsAsUnknown`: the value found, the sentinel
`tftypes.ErrInvalidStep`, or any other error. -/
inductive WalkResult : Type where
  | found (v : Val) : WalkResult
  | invalidStep : WalkResult
  | otherErr (msg : String) : WalkResult
deriving DecidableEq

/-- Embedding of `(tftypes.Value).ApplyTerraform5AttributePathStep` from
terraform-plugin-go: null and unknown values, primitives, and mismatched
step kinds all yield `ErrInvalidStep` (`none` here); known objects resolve
`AttributeName` and known lists resolve in-bounds `ElementKeyInt`. -/
def applyStepToVal (v : Val) (s : Step) : Option Val :=
  match v, s with
  | .objV _ fs, .attributeName n => fs.lookup n
  | .listV _ es, .elementKeyInt i => es.get i
  | _, _ => none

/-- Embedding of `tftypes.WalkAttributePath` on a value: apply the steps in
order, stopping with `ErrInvalidStep` when one cannot be applied. -/
def walkValue (v : Val) : Path → WalkResult
  | [] => .found v
  | s :: rest =>
    match applyStepToVal v s with
    | none => .invalidStep
    | some c => walkValue c rest

/-- Errors of schema resolution: the sentinel
`tfsdk.ErrPathInsideAtomicAttribute` or any other error. -/
inductive AttrErr : Type where
  | pathInsideAtomic : AttrErr
  | other (msg : String) : AttrErr
deriving DecidableEq

/-- A position while walking a schema: a named-attribute grouping (the schema
root or the child map of a nested attribute) or a single attribute. -/
inductive SchemaPoint : Type where
  | group (attrs : AttrFields) : SchemaPoint
  | one (a : Attr) : SchemaPoint

/-- Modelled from the spec: one step of `tfsdk.Schema` path resolution
(spec section 4.1, the `tfsdk` package is not among the sources here).
Groupings accept only `ByName` with a known name; an atomic attribute accepts
no step and fails with the path-inside-atomic-attribute sentinel; nested
attributes accept only the step kind of their nesting mode. -/
def schemaStep : SchemaPoint → Step → Except AttrErr SchemaPoint
  | .group attrs, .attributeName n =>
    match attrs.lookup n with
    | some a => .ok (.one a)
    | none => .error (.other ("could not find attribute \x22" ++ n ++ "\x22 in schema"))
  | .group _, _ => .error (.other "cannot apply step to schema")
  | .one (.atomic _ _ _ _ _), _ => .error .pathInsideAtomic
  | .one (.nested .single cs _ _ _ _), .attributeName n =>
    match cs.lookup n with
    | some a => .ok (.one a)
    | none => .error (.other ("could not find attribute \x22" ++ n ++ "\x22 in schema"))
  | .one (.nested .listNest cs _ _ _ _), .elementKeyInt _ => .ok (.group cs)
  | .one (.nested .mapNest cs _ _ _ _), .elementKeyString _ => .ok (.group cs)
  | .one (.nested .setNest cs _ _ _ _), .elementKeyValue _ => .ok (.group cs)
  | .one (.nested _ _ _ _ _ _), _ => .error (.other "cannot apply step to nested attributes")

/-- Iterated schema stepping (`tftypes.WalkAttributePath` over the schema). -/
def schemaWalk (p : SchemaPoint) : Path → Except AttrErr SchemaPoint
  | [] => .ok p
  | s :: rest =>
    match schemaStep p s with
    | .error e => .error e
    | .ok p2 => schemaWalk p2 rest

/-- Modelled from the spec: `tfsdk.Schema.AttributeAtPath` — resolve the
attribute at a path; a path ending inside an atomic attribute, or on a
position that is not itself an attribute, fails with the
path-inside-atomic-attribute sentinel (spec section 4.3: such positions
"have no schema of their own" and must degrade gracefully, not hard-fail). -/
def attributeAtPath (schema : AttrFields) (path : Path) : Except AttrErr Attr :=
  match schemaWalk (.group schema) path with
  | .error e => .error e
  | .ok (.one a) => .ok a
  | .ok (.group _) => .error .pathInsideAtomic

/-- Embedding of `markComputedNilsAsUnknown` (serve.go:236-269). The callback
is parameterized by its two collaborators exactly as the Go closure captures
them: `walk` is `tftypes.WalkAttributePath(config, ·)` and `attrAt` is
`resourceSchema.AttributeAtPath`. Positions at the root (fewer than one step)
are left unchanged; a non-`ErrInvalidStep` walk error is propagated; a
non-null config value leaves the plan value unchanged; otherwise the schema
attribute decides: resolution inside an atomic attribute leaves the value
unchanged, any other resolution failure is an error, a non-computed attribute
leaves the value unchanged, and a computed one replaces the value with
unknown at the value's own type. -/
def markComputedNilsAsUnknown (walk : Path → WalkResult)
    (attrAt : Path → Except AttrErr Attr) (path : Path) (val : Val) :
    Except String Val :=
  if path.length < 1 then .ok val
  else
    let resolve : Except String Val :=
      match attrAt path with
      | .error .pathInsideAtomic => .ok val
      | .error (.other e) => .error ("couldn't find attribute in resource schema: " ++ e)
      | .ok a => if !a.computed then .ok val else .ok (.unknownV val.type)
    match walk path with
    | .otherErr e => .error e
    | .found cv => if !cv.isNull then .ok val else resolve
    | .invalidStep => resolve

mutual
/-- Embedding of `tftypes.Transform` (terraform-plugin-go): a bottom-up
rewrite of a value. Children of known lists are visited under an
`ElementKeyInt` step and children of known objects under an `AttributeName`
step; null and unknown values are not descended into; the callback runs at
every position in post-order, the root (empty path) included. -/
def transformVal (cb : Path → Val → Except String Val) (path : Path) :
    Val → Except String Val
  | .listV t es =>
    match transformElems cb path 0 es with
    | .error e => .error e
    | .ok es2 => cb path (.listV t es2)
  | .objV ats fs =>
    match transformFields cb path fs with
    | .error e => .error e
    | .ok fs2 => cb path (.objV ats fs2)
  | v => cb path v

def transformElems (cb : Path → Val → Except String Val) (path : Path)
    (i : Int) : ValList → Except String ValList
  | .nil => .ok .nil
  | .cons v rest =>
    match transformVal cb (path ++ [Step.elementKeyInt i]) v with
    | .error e => .error e
    | .ok v2 =>
      match transformElems cb path (i + 1) rest with
      | .error e => .error e
      | .ok r2 => .ok (.cons v2 r2)

def transformFields (cb : Path → Val → Except String Val) (path : Path) :
    ValFields → Except String ValFields
  | .nil => .ok .nil
  | .cons n v rest =>
    match transformVal cb (path ++ [Step.attributeName n]) v with
    | .error e => .error e
    | .ok v2 =>
      match transformFields cb path rest with
      | .error e => .error e
      | .ok r2 => .ok (.cons n v2 r2)
end

/-- Go `tftypes.Transform(val, cb)`: the walk starts at the empty path. -/
def transform (cb : Path → Val → Except String Val) (val : Val) :
    Except String Val :=
  transformVal cb [] val

/-- A `PlanResourceChange` request, carried by its three unmarshal outcomes:
`req.Config.Unmarshal`, `req.ProposedNewState.Unmarshal` and
`req.PriorState.Unmarshal` against the resource schema's type (the wire
encoding itself is the transport layer, external to the engine). The optional
provider-meta block, which no claim exercises, is not modelled. -/
structure PlanRequest : Type where
  config : Except String Val
  proposedNewState : Except String Val
  priorState : Except String Val

/-- Result of the attribute-level plan-modification pass (`SchemaModifyPlan`
filling a `ModifySchemaPlanResponse`). -/
structure ModifySchemaPlanRsp : Type where
  plan : Val
  requiresReplace : List Path
  diags : Diags

/-- Result of the resource-level `ModifyPlan` method
(a `tfsdk.ModifyResourcePlanResponse`). -/
structure ModifyResourcePlanRsp : Type where
  plan : Val
  requiresReplace : List Path
  diags : Diags

/-- The engine's collaborators, passed explicitly: `attrPass` is the
attribute-level pass `SchemaModifyPlan(config, state, plan, diagsSoFar)`
(user plan modifiers dispatched over the schema); `modifyPlan` is the
resource-level `ModifyPlan` when the resource implements
`ResourceWithModifyPlan` (`none` otherwise); `conv` is
`tfprotov6.NewDynamicValue` on the final plan (wire marshalling, which can
fail). -/
structure Hooks : Type where
  attrPass : Val → Val → Val → Diags → ModifySchemaPlanRsp
  modifyPlan : Option (Val → Val → Val → Diags → ModifyResourcePlanRsp)
  conv : Val → Except String Val

/-- The `PlannedState` field of the response: either the raw
`req.ProposedNewState` echoed back (serve.go:344, the value the response
holds until the final conversion) or the converted final plan
(serve.go:563). -/
inductive PlannedState : Type where
  | proposed : PlannedState
  | converted (w : Val) : PlannedState
deriving DecidableEq

/-- The observable `planResourceChangeResponse`: planned state (if set),
diagnostics, and replacement paths. -/
structure PlanRsp : Type where
  plannedState : Option PlannedState
  diags : Diags
  requiresReplace : List Path
deriving DecidableEq

/-- Detail text of the config-unmarshal failure diagnostic (serve.go:319). -/
def parseConfigDetail : String :=
  "An unexpected error was encountered trying to parse the configuration. This is always an error in the provider. Please report the following to the provider developer:\n\n"

/-- Detail text of the plan-unmarshal failure diagnostic (serve.go:328). -/
def parsePlanDetail : String :=
  "There was an unexpected error parsing the plan. This is always a problem with the provider. Please report the following to the provider developer:\n\n"

/-- Detail text of the prior-state-unmarshal failure diagnostic (serve.go:337). -/
def parseStateDetail : String :=
  "An unexpected error was encountered trying to parse the prior state. This is always an error in the provider. Please report the following to the provider developer:\n\n"

/-- Detail text of the mark-unknown failure diagnostic (serve.go:410). -/
def modifyPlanDetail : String :=
  "There was an unexpected error updating the plan. This is always a problem with the provider. Please report the following to the provider developer:\n\n"

/-- Detail text of the final-conversion failure diagnostic (serve.go:557). -/
def convertDetail : String :=
  "There was an unexpected error converting the state in the response to a usable type. This is always a problem with the provider. Please report the following to the provider developer:\n\n"

/-- Final stage of `planResourceChange` (serve.go:555-567): convert the final
plan to a wire value — on failure add one error diagnostic and return with
the planned state and replacement paths untouched — then set the planned
state, append the resource-level replacement paths, and normalize. -/
def finishStage (hooks : Hooks) (plan : Val) (rr mpRR : List Path)
    (ds : Diags) : PlanRsp :=
  match hooks.conv plan with
  | .error e =>
    { plannedState := some .proposed,
      diags := ds ++ [errDiag "Error converting response" (convertDetail ++ e)],
      requiresReplace := rr }
  | .ok w =>
    { plannedState := some (.converted w), diags := ds,
      requiresReplace := normaliseRequiresReplace (rr ++ mpRR) }

/-- Resource-level `ModifyPlan` stage (serve.go:487-553): run unconditionally
when implemented, even for a null plan; the callback's diagnostics and plan
replace the response's wholesale, with no error check before conversion. -/
def modifyPlanStage (hooks : Hooks) (config state plan : Val)
    (rr : List Path) (ds : Diags) : PlanRsp :=
  match hooks.modifyPlan with
  | none => finishStage hooks plan rr [] ds
  | some mp =>
    let r := mp config state plan ds
    finishStage hooks r.plan rr r.requiresReplace r.diags

/-- Attribute-level plan-modification stage (serve.go:422-485): run only for
a non-null plan; its replacement paths and diagnostics are taken over and an
error-severity diagnostic stops reconciliation there. -/
def attrPassStage (hooks : Hooks) (config state plan : Val) : PlanRsp :=
  if !plan.isNull then
    let r := hooks.attrPass config state plan []
    if r.diags.hasError then
      { plannedState := some .proposed, diags := r.diags,
        requiresReplace := r.requiresReplace }
    else modifyPlanStage hooks config state r.plan r.requiresReplace r.diags
  else modifyPlanStage hooks config state plan [] []

/-- Embedding of `planResourceChange` (serve.go:298-568) from the point the
resource schema is in hand: unmarshal config, proposed plan and prior state
(each failure adds one error diagnostic and returns); echo the proposed state
into the response; when the plan is non-null and differs from the prior
state, mark computed nulls as unknown via `tftypes.Transform` (a transform
error adds one diagnostic and returns); then the attribute-level pass, the
resource-level pass, and the final conversion and normalization. -/
def planResourceChange (schema : AttrFields) (hooks : Hooks)
    (req : PlanRequest) : PlanRsp :=
  match req.config with
  | .error e =>
    { plannedState := none,
      diags := [errDiag "Error parsing configuration" (parseConfigDetail ++ e)],
      requiresReplace := [] }
  | .ok config =>
    match req.proposedNewState with
    | .error e =>
      { plannedState := none,
        diags := [errDiag "Error parsing plan" (parsePlanDetail ++ e)],
        requiresReplace := [] }
    | .ok plan0 =>
      match req.priorState with
      | .error e =>
        { plannedState := none,
          diags := [errDiag "Error parsing prior state" (parseStateDetail ++ e)],
          requiresReplace := [] }
      | .ok state =>
        match (if !plan0.isNull && !(plan0 == state) then
                 transform (markComputedNilsAsUnknown (walkValue config)
                   (attributeAtPath schema)) plan0
               else .ok plan0) with
        | .error e =>
          { plannedState := some .proposed,
            diags := [errDiag "Error modifying plan" (modifyPlanDetail ++ e)],
            requiresReplace := [] }
        | .ok plan1 => attrPassStage hooks config state plan1

theorem dedupAdjacent_sublist :
    ∀ (l : List Path) (prev : Path), List.Sublist (dedupAdjacent prev l) l := by
  intro l
  induction l with
  | nil => intro prev; simp [dedupAdjacent]
  | cons p rest ih =>
    intro prev
    by_cases h : p = prev
    · simp only [dedupAdjacent, if_pos h]
      exact (ih prev).trans (List.sublist_cons_self p rest)
    · simp only [dedupAdjacent, if_neg h]
      exact (ih p).cons₂ p

theorem chain_ne_dedupAdjacent :
    ∀ (l : List Path) (prev : Path),
      (prev :: dedupAdjacent prev l).Chain' (· ≠ ·) := by
  intro l
  induction l with
  | nil => intro prev; simp [dedupAdjacent]
  | cons p rest ih =>
    intro prev
    by_cases h : p = prev
    · simpa [dedupAdjacent, if_pos h] using ih prev
    · simp only [dedupAdjacent, if_neg h]
      rw [List.chain'_cons]
      exact ⟨fun hc => h hc.symm, ih p⟩

theorem mem_cons_dedupAdjacent :
    ∀ (l : List Path) (prev x : Path), x ∈ l → x ∈ prev :: dedupAdjacent prev l := by
  intro l
  induction l with
  | nil => intro prev x hx; cases hx
  | cons p rest ih =>
    intro prev x hx
    by_cases h : p = prev
    · simp only [dedupAdjacent, if_pos h]
      rcases List.mem_cons.mp hx with rfl | hx'
      · rw [h]; exact List.mem_cons_self _ _
      · exact ih prev x hx'
    · simp only [dedupAdjacent, if_neg h]
      rcases List.mem_cons.mp hx with rfl | hx'
      · exact List.mem_cons_of_mem _ (List.mem_cons_self _ _)
      · rcases List.mem_cons.mp (ih p x hx') with rfl | hy
        · exact List.mem_cons_of_mem _ (List.mem_cons_self _ _)
        · exact List.mem_cons_of_mem _ (List.mem_cons_of_mem _ hy)

theorem dedupAdjacent_eq_of_chain :
    ∀ (l : List Path) (prev : Path),
      (prev :: l).Chain' (· ≠ ·) → dedupAdjacent prev l = l := by
  intro l
  induction l with
  | nil => intro prev _; rfl
  | cons p rest ih =>
    intro prev hch
    rw [List.chain'_cons] at hch
    have hne : p ≠ prev := fun hc => hch.1 hc.symm
    simp only [dedupAdjacent, if_neg hne]
    rw [ih p hch.2]

theorem sorted_perm_eq_of_inj :
    ∀ (l₁ l₂ : List Path), l₁.Perm l₂ → l₁.Sorted pathLe → l₂.Sorted pathLe →
      (∀ a ∈ l₁, ∀ b ∈ l₁, Path.render a = Path.render b → a = b) → l₁ = l₂ := by
  intro l₁
  induction l₁ with
  | nil => intro l₂ hp _ _ _; exact hp.nil_eq
  | cons a t ih =>
    intro l₂ hp hs₁ hs₂ hinj
    cases l₂ with
    | nil => exact absurd hp.eq_nil (by simp)
    | cons b t₂ =>
      have hbmem : b ∈ a :: t := hp.mem_iff.mpr (List.mem_cons_self b t₂)
      have hamem : a ∈ b :: t₂ := hp.mem_iff.mp (List.mem_cons_self a t)
      have hab : a = b := by
        rcases List.mem_cons.mp hbmem with h | h
        · exact h.symm
        · rcases List.mem_cons.mp hamem with h' | h'
          · exact h'
          · have h₁ : pathLe a b := (List.sorted_cons.mp hs₁).1 b h
            have h₂ : pathLe b a := (List.sorted_cons.mp hs₂).1 a h'
            exact hinj a (List.mem_cons_self a t) b hbmem (pathLe_render_eq h₁ h₂)
      subst hab
      have hp' : t.Perm t₂ := (List.perm_cons a).mp hp
      have ht := ih t₂ hp' (List.sorted_cons.mp hs₁).2 (List.sorted_cons.mp hs₂).2
        (fun x hx y hy => hinj x (List.mem_cons_of_mem a hx) y (List.mem_cons_of_mem a hy))
      rw [ht]

theorem pathLt_of_lt_of_le {a c b : Path} (h₁ : pathLt a c) (h₂ : pathLe c b) :
    pathLt a b := by
  by_cases h : goStrLt (Path.render c) (Path.render b) = true
  · exact charListLt_trans _ _ _ h₁ h
  · have hr : Path.render c = Path.render b :=
      goStrLt_connex (Bool.eq_false_iff.mpr h) h₂
    have h₁' : goStrLt (Path.render a) (Path.render c) = true := h₁
    rw [hr] at h₁'
    exact h₁'

theorem pairwise_lt_of_sorted_chain :
    ∀ (l : List Path), l.Sorted pathLe → l.Chain' (· ≠ ·) →
      (∀ a ∈ l, ∀ b ∈ l, Path.render a = Path.render b → a = b) →
      l.Pairwise pathLt := by
  intro l
  induction l with
  | nil => intro _ _ _; exact List.Pairwise.nil
  | cons a t ih =>
    intro hs hch hinj
    rw [List.pairwise_cons]
    refine ⟨?_, ?_⟩
    · intro b hb
      cases t with
      | nil => cases hb
      | cons c t' =>
        have hac : pathLe a c := (List.sorted_cons.mp hs).1 c (List.mem_cons_self c t')
        have hanec : a ≠ c := (List.chain'_cons.mp hch).1
        have hrne : Path.render a ≠ Path.render c := fun hr =>
          hanec (hinj a (List.mem_cons_self a _) c
            (List.mem_cons_of_mem a (List.mem_cons_self c t')) hr)
        have hlt : pathLt a c := pathLt_of_pathLe_of_render_ne hac hrne
        rcases List.mem_cons.mp hb with rfl | hb'
        · exact hlt
        · have hcb : pathLe c b := (List.sorted_cons.mp (List.sorted_cons.mp hs).2).1 b hb'
          exact pathLt_of_lt_of_le hlt hcb
    · exact ih (List.sorted_cons.mp hs).2 hch.tail
        (fun x hx y hy => hinj x (List.mem_cons_of_mem a hx) y (List.mem_cons_of_mem a hy))

theorem normalise_short {rs : List Path} (h : rs.length < 2) :
    normaliseRequiresReplace rs = rs := by
  simp [normaliseRequiresReplace, h]

theorem normalise_sorted (rs : List Path) :
    (normaliseRequiresReplace rs).Sorted pathLe := by
  by_cases h : rs.length < 2
  · rw [normalise_short h]
    cases rs with
    | nil => exact List.sorted_nil
    | cons p t =>
      cases t with
      | nil => exact List.sorted_singleton p
      | cons q t' => exact absurd h (by simp)
  · rw [normaliseRequiresReplace]
    simp only [if_neg h]
    have hs := List.sorted_insertionSort pathLe rs
    cases hm : List.insertionSort pathLe rs with
    | nil => exact List.sorted_nil
    | cons p rest =>
      rw [hm] at hs
      exact hs.sublist ((dedupAdjacent_sublist rest p).cons₂ p)

theorem normalise_chain_ne (rs : List Path) :
    (normaliseRequiresReplace rs).Chain' (· ≠ ·) := by
  by_cases h : rs.length < 2
  · rw [normalise_short h]
    cases rs with
    | nil => simp
    | cons p t =>
      cases t with
      | nil => simp
      | cons q t' => exact absurd h (by simp)
  · rw [normaliseRequiresReplace]
    simp only [if_neg h]
    cases hm : List.insertionSort pathLe rs with
    | nil => simp
    | cons p rest => exact chain_ne_dedupAdjacent rest p

theorem normalise_mem (rs : List Path) (x : Path) :
    x ∈ normaliseRequiresReplace rs ↔ x ∈ rs := by
  by_cases h : rs.length < 2
  · rw [normalise_short h]
  · rw [normaliseRequiresReplace]
    simp only [if_neg h]
    cases hm : List.insertionSort pathLe rs with
    | nil =>
      have hperm := List.perm_insertionSort pathLe rs
      rw [hm] at hperm
      rw [← hperm.nil_eq]
    | cons p rest =>
      have hperm := List.perm_insertionSort pathLe rs
      rw [hm] at hperm
      constructor
      · intro hx
        have hsub : List.Sublist (p :: dedupAdjacent p rest) (p :: rest) :=
          (dedupAdjacent_sublist rest p).cons₂ p
        exact hperm.subset (hsub.subset hx)
      · intro hx
        have hx' : x ∈ p :: rest := hperm.mem_iff.mpr hx
        rcases List.mem_cons.mp hx' with rfl | hx''
        · exact List.mem_cons_self _ _
        · exact mem_cons_dedupAdjacent rest p x hx''

theorem normalise_nodup_of_inj (rs : List Path)
    (hinj : ∀ a ∈ rs, ∀ b ∈ rs, Path.render a = Path.render b → a = b) :
    (normaliseRequiresReplace rs).Nodup := by
  have hpw := pairwise_lt_of_sorted_chain _ (normalise_sorted rs) (normalise_chain_ne rs)
    (fun a ha b hb => hinj a ((normalise_mem rs a).mp ha) b ((normalise_mem rs b).mp hb))
  exact hpw.imp (fun h heq => absurd (heq ▸ h) (pathLt_irrefl _))

theorem normalise_idem (rs : List Path) :
    normaliseRequiresReplace (normaliseRequiresReplace rs) = normaliseRequiresReplace rs := by
  by_cases h2 : (normaliseRequiresReplace rs).length < 2
  · exact normalise_short h2
  · have hs := normalise_sorted rs
    have hch := normalise_chain_ne rs
    rw [normaliseRequiresReplace]
    simp only [if_neg h2]
    rw [hs.insertionSort_eq]
    cases hm : normaliseRequiresReplace rs with
    | nil => rfl
    | cons p rest =>
      rw [hm] at hch
      show p :: dedupAdjacent p rest = p :: rest
      rw [dedupAdjacent_eq_of_chain rest p hch]

theorem normalise_perm_inv (rs rs' : List Path) (hp : rs.Perm rs')
    (hinj : ∀ a ∈ rs, ∀ b ∈ rs, Path.render a = Path.render b → a = b) :
    normaliseRequiresReplace rs' = normaliseRequiresReplace rs := by
  by_cases h : rs.length < 2
  · have heq : rs = rs' := by
      cases rs with
      | nil => exact hp.nil_eq
      | cons p t =>
        cases t with
        | nil => exact (List.perm_singleton.mp hp.symm).symm
        | cons q t' => exact absurd h (by simp)
    rw [← heq]
  · have h' : ¬ rs'.length < 2 := by rw [← hp.length_eq]; exact h
    have hsort_eq : List.insertionSort pathLe rs' = List.insertionSort pathLe rs := by
      apply sorted_perm_eq_of_inj
      · exact (List.perm_insertionSort pathLe rs').trans
          (hp.symm.trans (List.perm_insertionSort pathLe rs).symm)
      · exact List.sorted_insertionSort pathLe rs'
      · exact List.sorted_insertionSort pathLe rs
      · intro a ha b hb
        exact hinj a (hp.mem_iff.mpr ((List.perm_insertionSort pathLe rs').subset ha))
          b (hp.mem_iff.mpr ((List.perm_insertionSort pathLe rs').subset hb))
    rw [normaliseRequiresReplace, normaliseRequiresReplace]
    simp only [if_neg h, if_neg h']
    rw [hsort_eq]

/-- A single-step path whose attribute name embeds the rendering delimiters:
`tftypes.AttributeName` accepts any Go string, and this one makes the path's
rendering collide with that of a genuine two-step path. -/
def collidingOneStep : Path := [Step.attributeName "a\").AttributeName(\"b"]

/-- The two-step path `a`, `b`, rendering identically to `collidingOneStep`
while differing from it by path equality. -/
def collidingTwoStep : Path := [Step.attributeName "a", Step.attributeName "b"]

/-- The path `a` used by the spec's replacement-ordering scenario. -/
def pathA : Path := [Step.attributeName "a"]

/-- The path `b` used by the spec's replacement-ordering scenario. -/
def pathB : Path := [Step.attributeName "b"]

/-- The path `c` used by the spec's replacement-ordering scenario. -/
def pathC : Path := [Step.attributeName "c"]

/-- C1: in the mark-unknown pass, for every addressable position of the plan
at depth at least one: a non-null config value at the same path leaves the
plan value unchanged; otherwise (config value null there) the schema
attribute decides — not computed leaves the value unchanged, computed
replaces it with unknown preserving its type, resolution inside an
atomic/schemaless attribute leaves it unchanged, and any other resolution
failure is a fatal error. -/
theorem c1_mark_unknown_classification (walk : Path → WalkResult)
    (attrAt : Path → Except AttrErr Attr) (path : Path) (val : Val)
    (hdepth : 1 ≤ path.length) :
    (∀ cv, walk path = .found cv → cv.isNull = false →
      markComputedNilsAsUnknown walk attrAt path val = .ok val) ∧
    ((walk path = .invalidStep ∨ (∃ cv, walk path = .found cv ∧ cv.isNull = true)) →
      (∀ a, attrAt path = .ok a → a.computed = false →
        markComputedNilsAsUnknown walk attrAt path val = .ok val) ∧
      (∀ a, attrAt path = .ok a → a.computed = true →
        markComputedNilsAsUnknown walk attrAt path val = .ok (.unknownV val.type)) ∧
      (attrAt path = .error .pathInsideAtomic →
        markComputedNilsAsUnknown walk attrAt path val = .ok val) ∧
      (∀ e, attrAt path = .error (.other e) →
        markComputedNilsAsUnknown walk attrAt path val
          = .error ("couldn't find attribute in resource schema: " ++ e))) := by
  have hroot : ¬ path.length < 1 := by omega
  constructor
  · intro cv hw hn
    simp [markComputedNilsAsUnknown, hroot, hw, hn]
  · intro hnull
    refine ⟨?_, ?_, ?_, ?_⟩
    · intro a ha hc
      rcases hnull with hw | ⟨cv, hw, hn⟩ <;>
        simp [markComputedNilsAsUnknown, hroot, hw, ha, hc, *]
    · intro a ha hc
      rcases hnull with hw | ⟨cv, hw, hn⟩ <;>
        simp [markComputedNilsAsUnknown, hroot, hw, ha, hc, *]
    · intro ha
      rcases hnull with hw | ⟨cv, hw, hn⟩ <;>
        simp [markComputedNilsAsUnknown, hroot, hw, ha, *]
    · intro e ha
      rcases hnull with hw | ⟨cv, hw, hn⟩ <;>
        simp [markComputedNilsAsUnknown, hroot, hw, ha, *]

/-- Witness for C1 at a concrete input: a computed string attribute that is
null in the config is marked unknown. -/
theorem c1_mark_unknown_witness :
    markComputedNilsAsUnknown (fun _ => WalkResult.found (Val.nullV Ty.string))
      (fun _ => Except.ok (Attr.atomic Ty.string false true true false))
      [Step.attributeName "c"] (Val.strV "old")
      = Except.ok (Val.unknownV Ty.string) := by
  have h := c1_mark_unknown_classification
    (fun _ => WalkResult.found (Val.nullV Ty.string))
    (fun _ => Except.ok (Attr.atomic Ty.string false true true false))
    [Step.attributeName "c"] (Val.strV "old") (by decide)
  exact (h.2 (Or.inr ⟨Val.nullV Ty.string, rfl, rfl⟩)).2.1 _ rfl rfl

/-- C10: when walking the config by the plan position's path fails with
`ErrInvalidStep`, the position is treated exactly as if the config value were
null there — the schema attribute is still resolved, a computed attribute is
still marked unknown, and only a resolution failure with the
path-inside-atomic-attribute sentinel leaves the value unchanged. -/
theorem c10_invalid_step_as_null (walk : Path → WalkResult)
    (attrAt : Path → Except AttrErr Attr) (path : Path) (val : Val)
    (hdepth : 1 ≤ path.length) (hw : walk path = .invalidStep) :
    markComputedNilsAsUnknown walk attrAt path val
      = markComputedNilsAsUnknown (fun _ => .found (Val.nullV val.type)) attrAt path val ∧
    (∀ a, attrAt path = .ok a → a.computed = true →
      markComputedNilsAsUnknown walk attrAt path val = .ok (.unknownV val.type)) ∧
    (attrAt path = .error .pathInsideAtomic →
      markComputedNilsAsUnknown walk attrAt path val = .ok val) := by
  have hroot : ¬ path.length < 1 := by omega
  refine ⟨?_, ?_, ?_⟩
  · simp [markComputedNilsAsUnknown, hroot, hw, Val.isNull]
  · intro a ha hc
    simp [markComputedNilsAsUnknown, hroot, hw, ha, hc]
  · intro ha
    simp [markComputedNilsAsUnknown, hroot, hw, ha]

/-- Witness for C10 at a concrete input: an invalid-step config walk still
marks a computed attribute unknown. -/
theorem c10_invalid_step_witness :
    markComputedNilsAsUnknown (fun _ => WalkResult.invalidStep)
      (fun _ => Except.ok (Attr.atomic Ty.bool false false true false))
      [Step.attributeName "x", Step.attributeName "y"] (Val.boolV true)
      = Except.ok (Val.unknownV Ty.bool) :=
  (c10_invalid_step_as_null (fun _ => WalkResult.invalidStep)
    (fun _ => Except.ok (Attr.atomic Ty.bool false false true false))
    [Step.attributeName "x", Step.attributeName "y"] (Val.boolV true)
    (by decide) rfl).2.1 _ rfl rfl

/-- Counterexample to C2 as stated: normalization does not always deduplicate
by path equality. Two distinct paths with identical string renderings can
separate two copies of the same path in the sorted slice; the deduplication
loop only compares against the last kept entry, so the second copy survives
and the output still contains a duplicate. -/
theorem c2_normalise_counterexample :
    normaliseRequiresReplace [collidingOneStep, collidingTwoStep, collidingOneStep]
        = [collidingOneStep, collidingTwoStep, collidingOneStep] ∧
    Path.render collidingOneStep = Path.render collidingTwoStep ∧
    collidingOneStep ≠ collidingTwoStep ∧
    ¬ (normaliseRequiresReplace
        [collidingOneStep, collidingTwoStep, collidingOneStep]).Nodup := by
  exact ⟨by decide, by decide, by decide, by decide⟩

/-- C2 (amended): normalization returns a list sorted ascending by each
path's string rendering with no two consecutive entries equal, containing
exactly the paths of the input; any input of length below two is returned
unchanged; full deduplication by path equality (keeping the first occurrence
in sorted order) holds whenever distinct paths of the input have distinct
renderings — in particular appended paths b, a, a, c normalize to
[a, b, c]. -/
theorem c2_normalise_amended (rs : List Path) :
    (normaliseRequiresReplace rs).Sorted pathLe ∧
    (normaliseRequiresReplace rs).Chain' (· ≠ ·) ∧
    (∀ p : Path, p ∈ normaliseRequiresReplace rs ↔ p ∈ rs) ∧
    (rs.length < 2 → normaliseRequiresReplace rs = rs) ∧
    ((∀ a ∈ rs, ∀ b ∈ rs, Path.render a = Path.render b → a = b) →
      (normaliseRequiresReplace rs).Nodup) ∧
    normaliseRequiresReplace [pathB, pathA, pathA, pathC]
      = [pathA, pathB, pathC] :=
  ⟨normalise_sorted rs, normalise_chain_ne rs, normalise_mem rs,
    fun h => normalise_short h, normalise_nodup_of_inj rs, by decide⟩

/-- Witness for C2 at concrete inputs: a singleton input is unchanged, and the
ordering scenario's output is duplicate-free. -/
theorem c2_normalise_witness :
    normaliseRequiresReplace [pathA] = [pathA] ∧
    (normaliseRequiresReplace [pathB, pathA, pathA, pathC]).Nodup :=
  ⟨(c2_normalise_amended [pathA]).2.2.2.1 (by decide),
   (c2_normalise_amended [pathB, pathA, pathA, pathC]).2.2.2.2.1 (by decide)⟩

/-- Counterexample to C3 as stated: normalization is not invariant under
every permutation. For two distinct paths with identical renderings the sort
leaves either arrangement in place (their comparator never orders them), so
the two permutations normalize to different lists. -/
theorem c3_normalise_counterexample :
    List.Perm [collidingOneStep, collidingTwoStep]
      [collidingTwoStep, collidingOneStep] ∧
    normaliseRequiresReplace [collidingOneStep, collidingTwoStep]
      = [collidingOneStep, collidingTwoStep] ∧
    normaliseRequiresReplace [collidingTwoStep, collidingOneStep]
      = [collidingTwoStep, collidingOneStep] ∧
    normaliseRequiresReplace [collidingTwoStep, collidingOneStep]
      ≠ normaliseRequiresReplace [collidingOneStep, collidingTwoStep] := by
  refine ⟨List.Perm.swap _ _ _, by decide, by decide, by decide⟩

/-- C3 (amended): normalization is idempotent, and it is permutation-invariant
on every input whose distinct paths have distinct string renderings (under
the same hypothesis duplicates collapse to a single entry, by the
deduplication part of C2). -/
theorem c3_normalise_idem_perm (rs rs' : List Path) :
    normaliseRequiresReplace (normaliseRequiresReplace rs)
      = normaliseRequiresReplace rs ∧
    (rs.Perm rs' →
      (∀ a ∈ rs, ∀ b ∈ rs, Path.render a = Path.render b → a = b) →
      normaliseRequiresReplace rs' = normaliseRequiresReplace rs) :=
  ⟨normalise_idem rs, fun hp hinj => normalise_perm_inv rs rs' hp hinj⟩

/-- Witness for C3 at concrete inputs: the two orders of the paths a, b
normalize identically. -/
theorem c3_normalise_witness :
    normaliseRequiresReplace [pathA, pathB]
      = normaliseRequiresReplace [pathB, pathA] :=
  (c3_normalise_idem_perm [pathB, pathA] [pathA, pathB]).2 (by decide) (by decide)

/-- Hooks for a resource with no plan modification at all: the attribute-level
pass changes nothing, the resource does not implement `ModifyPlan`, and wire
conversion succeeds. -/
def idHooks : Hooks :=
  { attrPass := fun _ _ p d => ⟨p, [], d⟩,
    modifyPlan := none,
    conv := fun v => Except.ok v }

/-- C4: the mark-unknown pass runs only for a non-null plan differing from
the prior state — when the proposed plan equals the prior state the pipeline
continues with the original plan untouched by the transform — and for a null
proposed plan (resource deletion) it never runs and, with no modifiers
changing the plan, the planned value of the response is the null value,
regardless of schema shape and config contents. -/
theorem c4_null_plan_short_circuit (schema : AttrFields) (hooks : Hooks)
    (req : PlanRequest) (config state : Val)
    (hc : req.config = .ok config)
    (hs : req.priorState = .ok state) :
    (∀ ty, req.proposedNewState = .ok (Val.nullV ty) →
      hooks.modifyPlan = none →
      hooks.conv = (fun v => Except.ok v) →
      planResourceChange schema hooks req =
        { plannedState := some (.converted (Val.nullV ty)), diags := [],
          requiresReplace := [] }) ∧
    (∀ plan0, req.proposedNewState = .ok plan0 → (plan0 == state) = true →
      planResourceChange schema hooks req
        = attrPassStage hooks config state plan0) := by
  constructor
  · intro ty hp hmp hconv
    simp [planResourceChange, hc, hp, hs, Val.isNull, attrPassStage, modifyPlanStage,
      hmp, finishStage, hconv, normaliseRequiresReplace]
  · intro plan0 hp heq
    simp [planResourceChange, hc, hp, hs, heq]

/-- Witness for C4 at a concrete input: deleting a resource passes the null
plan through untouched whatever the schema holds. -/
theorem c4_null_plan_witness :
    planResourceChange (AttrFields.cons "c" (Attr.atomic Ty.string false false true false) .nil)
      idHooks ⟨.ok (Val.strV "cfg"), .ok (Val.nullV Ty.string), .ok (Val.strV "st")⟩ =
      { plannedState := some (.converted (Val.nullV Ty.string)), diags := [],
        requiresReplace := [] } :=
  (c4_null_plan_short_circuit _ idHooks _ (Val.strV "cfg") (Val.strV "st")
    rfl rfl).1 Ty.string rfl rfl rfl

/-- Hooks whose attribute-level pass records the plan it observes by
appending a replacement path keyed by that plan value, changing nothing
else. -/
def observeHooks : Hooks :=
  { attrPass := fun _ _ p d => ⟨p, [[Step.elementKeyValue p]], d⟩,
    modifyPlan := none,
    conv := fun v => Except.ok v }

/-- Schema of the C5 scenario: one optional computed string attribute `c`. -/
def c5Schema : AttrFields :=
  .cons "c" (Attr.atomic Ty.string false true true false) .nil

/-- Object type of the C5 scenario values. -/
def c5ObjTy : TyFields := .cons "c" Ty.string .nil

/-- C5 scenario config: `c` is null. -/
def c5Config : Val := .objV c5ObjTy (.cons "c" (.nullV Ty.string) .nil)

/-- C5 scenario prior state: `c` is "old". -/
def c5State : Val := .objV c5ObjTy (.cons "c" (.strV "old") .nil)

/-- C5 scenario proposed plan: `c` is null (plan differs from state). -/
def c5Plan : Val := .objV c5ObjTy (.cons "c" (.nullV Ty.string) .nil)

/-- The C5 plan after the mark-unknown pass: `c` became unknown. -/
def c5Marked : Val := .objV c5ObjTy (.cons "c" (.unknownV Ty.string) .nil)

/-- The C5 scenario request. -/
def c5Req : PlanRequest := ⟨.ok c5Config, .ok c5Plan, .ok c5State⟩

/-- Counterexample to C5 as stated: no attribute-level pass is invoked before
the mark-unknown pass (the source disables that invocation behind a TODO).
An attribute-level pass that records the plan it is shown records the plan
with the computed null already replaced by unknown, not the unmodified
proposed plan. -/
theorem c5_attr_pass_counterexample :
    (planResourceChange c5Schema observeHooks c5Req).requiresReplace
        = [[Step.elementKeyValue c5Marked]] ∧
    c5Marked ≠ c5Plan := by
  exact ⟨by decide, by decide⟩

/-- C5 (amended): during reconciliation with a non-null proposed plan
differing from the prior state, the attribute-level plan-modification pass is
invoked after the computed-null unknown-marking pass and observes its output
(the pass before the marking is disabled in the source pending a
path-resolution fix), so modifiers may overwrite the marked unknowns. -/
theorem c5_attr_pass_after_mark (schema : AttrFields) (req : PlanRequest)
    (config state plan0 m : Val)
    (hc : req.config = .ok config) (hp : req.proposedNewState = .ok plan0)
    (hs : req.priorState = .ok state)
    (hnn : plan0.isNull = false) (hne : (plan0 == state) = false)
    (hm : transform (markComputedNilsAsUnknown (walkValue config)
      (attributeAtPath schema)) plan0 = .ok m)
    (hmn : m.isNull = false) :
    (planResourceChange schema observeHooks req).requiresReplace
      = [[Step.elementKeyValue m]] := by
  simp [planResourceChange, hc, hp, hs, hnn, hne, hm, attrPassStage, observeHooks,
    hmn, Diags.hasError, modifyPlanStage, finishStage, normaliseRequiresReplace]

/-- Witness for C5 (amended) at the concrete scenario: the observed plan is
the marked one. -/
theorem c5_attr_pass_witness :
    (planResourceChange c5Schema observeHooks c5Req).requiresReplace
      = [[Step.elementKeyValue c5Marked]] :=
  c5_attr_pass_after_mark c5Schema c5Req c5Config c5State c5Plan c5Marked
    rfl rfl rfl (by decide) (by decide) rfl (by decide)

/-- The plan a misbehaving resource-level `ModifyPlan` produces alongside an
error diagnostic. -/
def evilPlan : Val := .strV "evil"

/-- Hooks of the C6 scenario: the resource-level `ModifyPlan` rewrites the
whole plan and records an error diagnostic. -/
def c6Hooks : Hooks :=
  { attrPass := fun _ _ p d => ⟨p, [], d⟩,
    modifyPlan := some (fun _ _ _ d => ⟨evilPlan, [], d ++ [errDiag "boom" "x"]⟩),
    conv := fun v => Except.ok v }

/-- The C6 scenario request: plan equals prior state, so the mark pass is
skipped and only the modifier passes act. -/
def c6Req : PlanRequest := ⟨.ok (.strV "cfg"), .ok (.strV "p"), .ok (.strV "p")⟩

/-- Counterexample to C6 as stated: the plan produced by a resource-level
`ModifyPlan` that records an error diagnostic IS returned as the planned
state — the source has no error check between `ModifyPlan` and the final
conversion. -/
theorem c6_modify_plan_counterexample :
    planResourceChange AttrFields.nil c6Hooks c6Req =
      { plannedState := some (.converted evilPlan),
        diags := [errDiag "boom" "x"], requiresReplace := [] } ∧
    Diags.hasError [errDiag "boom" "x"] = true ∧
    evilPlan ≠ Val.strV "p" := by
  exact ⟨by decide, by decide, by decide⟩

/-- C6 (amended): an error-severity diagnostic recorded by the attribute-level
pass stops reconciliation — the response keeps the proposed-state echo and no
later plan is returned; but the resource-level `ModifyPlan` has no such
cut-off: its plan is converted and returned as the planned state whatever
diagnostics it records. -/
theorem c6_fatal_diag_cutoff (schema : AttrFields) (hooks : Hooks)
    (req : PlanRequest) (config state plan0 plan1 : Val)
    (hc : req.config = .ok config) (hp : req.proposedNewState = .ok plan0)
    (hs : req.priorState = .ok state)
    (hm : (if !plan0.isNull && !(plan0 == state) then
             transform (markComputedNilsAsUnknown (walkValue config)
               (attributeAtPath schema)) plan0
           else Except.ok plan0) = Except.ok plan1)
    (hnn : plan1.isNull = false) :
    ((hooks.attrPass config state plan1 []).diags.hasError = true →
      planResourceChange schema hooks req =
        { plannedState := some PlannedState.proposed,
          diags := (hooks.attrPass config state plan1 []).diags,
          requiresReplace := (hooks.attrPass config state plan1 []).requiresReplace }) ∧
    (∀ mp w, hooks.modifyPlan = some mp →
      (hooks.attrPass config state plan1 []).diags.hasError = false →
      hooks.conv (mp config state (hooks.attrPass config state plan1 []).plan
        (hooks.attrPass config state plan1 []).diags).plan = Except.ok w →
      planResourceChange schema hooks req =
        { plannedState := some (PlannedState.converted w),
          diags := (mp config state (hooks.attrPass config state plan1 []).plan
            (hooks.attrPass config state plan1 []).diags).diags,
          requiresReplace := normaliseRequiresReplace
            ((hooks.attrPass config state plan1 []).requiresReplace ++
              (mp config state (hooks.attrPass config state plan1 []).plan
                (hooks.attrPass config state plan1 []).diags).requiresReplace) }) := by
  constructor
  · intro herr
    simp only [planResourceChange, hc, hp, hs]
    rw [hm]
    simp [attrPassStage, hnn, herr]
  · intro mp w hmp hne hcv
    simp only [planResourceChange, hc, hp, hs]
    rw [hm]
    simp [attrPassStage, hnn, hne, modifyPlanStage, hmp, finishStage, hcv]

/-- Hooks whose attribute-level pass itself records an error diagnostic while
a later resource-level `ModifyPlan` would rewrite the plan. -/
def failingAttrHooks : Hooks :=
  { attrPass := fun _ _ p d => ⟨p, [], d ++ [errDiag "attr fail" "y"]⟩,
    modifyPlan := some (fun _ _ _ d => ⟨Val.strV "later", [], d⟩),
    conv := fun v => Except.ok v }

/-- Witness for C6 (amended) at a concrete input: after the attribute-level
pass fails, the response still carries the proposed-state echo and the
`ModifyPlan` plan never appears. -/
theorem c6_fatal_diag_witness :
    planResourceChange AttrFields.nil failingAttrHooks
      ⟨.ok (Val.strV "c"), .ok (Val.strV "p"), .ok (Val.strV "p")⟩ =
      { plannedState := some PlannedState.proposed,
        diags := [errDiag "attr fail" "y"], requiresReplace := [] } :=
  (c6_fatal_diag_cutoff AttrFields.nil failingAttrHooks
    ⟨.ok (Val.strV "c"), .ok (Val.strV "p"), .ok (Val.strV "p")⟩
    (Val.strV "c") (Val.strV "p") (Val.strV "p") (Val.strV "p")
    rfl rfl rfl rfl (by decide)).1 (by decide)

/-- C7: an unmarshal failure of the config, proposed plan or prior state
records exactly one error diagnostic for it and skips every pass (the result
does not depend on the hooks at all), and a failure converting the final plan
to a wire value — the plan of the attribute-level pass, of the resource-level
`ModifyPlan` when one is implemented, or the untouched (possibly null) plan
when the passes did not run — appends exactly one error diagnostic, leaves
the proposed-state echo in place, and skips the remaining steps (no planned
state, no appending of resource-level replacement paths, no
normalization). -/
theorem c7_failure_diagnostics (schema : AttrFields) (hooks : Hooks)
    (req : PlanRequest) :
    (∀ e, req.config = .error e →
      planResourceChange schema hooks req =
        { plannedState := none,
          diags := [errDiag "Error parsing configuration" (parseConfigDetail ++ e)],
          requiresReplace := [] }) ∧
    (∀ config e, req.config = .ok config → req.proposedNewState = .error e →
      planResourceChange schema hooks req =
        { plannedState := none,
          diags := [errDiag "Error parsing plan" (parsePlanDetail ++ e)],
          requiresReplace := [] }) ∧
    (∀ config plan0 e, req.config = .ok config →
      req.proposedNewState = .ok plan0 → req.priorState = .error e →
      planResourceChange schema hooks req =
        { plannedState := none,
          diags := [errDiag "Error parsing prior state" (parseStateDetail ++ e)],
          requiresReplace := [] }) ∧
    (∀ config state plan0 plan1 e, req.config = .ok config →
      req.proposedNewState = .ok plan0 → req.priorState = .ok state →
      (if !plan0.isNull && !(plan0 == state) then
         transform (markComputedNilsAsUnknown (walkValue config)
           (attributeAtPath schema)) plan0
       else Except.ok plan0) = Except.ok plan1 →
      plan1.isNull = false →
      hooks.modifyPlan = none →
      (hooks.attrPass config state plan1 []).diags.hasError = false →
      hooks.conv (hooks.attrPass config state plan1 []).plan = Except.error e →
      planResourceChange schema hooks req =
        { plannedState := some PlannedState.proposed,
          diags := (hooks.attrPass config state plan1 []).diags ++
            [errDiag "Error converting response" (convertDetail ++ e)],
          requiresReplace := (hooks.attrPass config state plan1 []).requiresReplace }) ∧
    (∀ config state plan0 plan1 mp e, req.config = .ok config →
      req.proposedNewState = .ok plan0 → req.priorState = .ok state →
      (if !plan0.isNull && !(plan0 == state) then
         transform (markComputedNilsAsUnknown (walkValue config)
           (attributeAtPath schema)) plan0
       else Except.ok plan0) = Except.ok plan1 →
      plan1.isNull = false →
      hooks.modifyPlan = some mp →
      (hooks.attrPass config state plan1 []).diags.hasError = false →
      hooks.conv (mp config state (hooks.attrPass config state plan1 []).plan
        (hooks.attrPass config state plan1 []).diags).plan = Except.error e →
      planResourceChange schema hooks req =
        { plannedState := some PlannedState.proposed,
          diags := (mp config state (hooks.attrPass config state plan1 []).plan
            (hooks.attrPass config state plan1 []).diags).diags ++
            [errDiag "Error converting response" (convertDetail ++ e)],
          requiresReplace := (hooks.attrPass config state plan1 []).requiresReplace }) ∧
    (∀ config state plan0 plan1 e, req.config = .ok config →
      req.proposedNewState = .ok plan0 → req.priorState = .ok state →
      (if !plan0.isNull && !(plan0 == state) then
         transform (markComputedNilsAsUnknown (walkValue config)
           (attributeAtPath schema)) plan0
       else Except.ok plan0) = Except.ok plan1 →
      plan1.isNull = true →
      hooks.modifyPlan = none →
      hooks.conv plan1 = Except.error e →
      planResourceChange schema hooks req =
        { plannedState := some PlannedState.proposed,
          diags := [errDiag "Error converting response" (convertDetail ++ e)],
          requiresReplace := [] }) ∧
    (∀ config state plan0 plan1 mp e, req.config = .ok config →
      req.proposedNewState = .ok plan0 → req.priorState = .ok state →
      (if !plan0.isNull && !(plan0 == state) then
         transform (markComputedNilsAsUnknown (walkValue config)
           (attributeAtPath schema)) plan0
       else Except.ok plan0) = Except.ok plan1 →
      plan1.isNull = true →
      hooks.modifyPlan = some mp →
      hooks.conv (mp config state plan1 []).plan = Except.error e →
      planResourceChange schema hooks req =
        { plannedState := some PlannedState.proposed,
          diags := (mp config state plan1 []).diags ++
            [errDiag "Error converting response" (convertDetail ++ e)],
          requiresReplace := [] }) := by
  refine ⟨?_, ?_, ?_, ?_, ?_, ?_, ?_⟩
  · intro e hc
    simp [planResourceChange, hc]
  · intro config e hc hp
    simp [planResourceChange, hc, hp]
  · intro config plan0 e hc hp hs
    simp [planResourceChange, hc, hp, hs]
  · intro config state plan0 plan1 e hc hp hs hm hnn hmp hne hcv
    simp only [planResourceChange, hc, hp, hs]
    rw [hm]
    simp [attrPassStage, hnn, hne, modifyPlanStage, hmp, finishStage, hcv]
  · intro config state plan0 plan1 mp e hc hp hs hm hnn hmp hne hcv
    simp only [planResourceChange, hc, hp, hs]
    rw [hm]
    simp [attrPassStage, hnn, hne, modifyPlanStage, hmp, finishStage, hcv]
  · intro config state plan0 plan1 e hc hp hs hm hn hmp hcv
    simp only [planResourceChange, hc, hp, hs]
    rw [hm]
    simp [attrPassStage, hn, modifyPlanStage, hmp, finishStage, hcv]
  · intro config state plan0 plan1 mp e hc hp hs hm hn hmp hcv
    simp only [planResourceChange, hc, hp, hs]
    rw [hm]
    simp [attrPassStage, hn, modifyPlanStage, hmp, finishStage, hcv]

/-- Witness for C7 at a concrete input: a failing config unmarshal yields the
single parsing diagnostic and nothing else. -/
theorem c7_failure_witness :
    planResourceChange AttrFields.nil idHooks
      ⟨.error "bad", .ok (Val.strV "p"), .ok (Val.strV "p")⟩ =
      { plannedState := none,
        diags := [errDiag "Error parsing configuration" (parseConfigDetail ++ "bad")],
        requiresReplace := [] } :=
  (c7_failure_diagnostics AttrFields.nil idHooks
    ⟨.error "bad", .ok (Val.strV "p"), .ok (Val.strV "p")⟩).1 "bad" rfl

/-- The concrete Go type name of each path-step kind, as the `%T` verb of
package `fmt` renders it in error messages. -/
def Step.goTypeName : Step → String
  | .attributeName _ => "tftypes.AttributeName"
  | .elementKeyInt _ => "tftypes.ElementKeyInt"
  | .elementKeyString _ => "tftypes.ElementKeyString"
  | .elementKeyValue _ => "tftypes.ElementKeyValue"

/-- Modelled from the spec:
`metaschema.StringAttribute.ApplyTerraform5AttributePathStep` — its
implementation is not among the sources here, only its test. Spec section 4.1:
a primitive attribute accepts no step, failing for every step kind with an
error that names the concrete step type and the concrete attribute type; the
expected message strings appear verbatim in `string_attribute_test.go`.
`Unit` stands for the absent child result (`nil` in Go). -/
def stringAttributeApplyStep (step : Step) : Except String Unit :=
  .error ("cannot apply AttributePathStep " ++ step.goTypeName
    ++ " to basetypes.StringType")

/-- C8: applying any of the four step kinds to a primitive string attribute
fails, returns no child result, and the error message names the concrete step
type and the concrete attribute type — matching the four messages of the
test verbatim. -/
theorem c8_string_attribute_unsteppable (step : Step) :
    stringAttributeApplyStep step
      = Except.error ("cannot apply AttributePathStep " ++ step.goTypeName
          ++ " to basetypes.StringType") ∧
    (∀ u, stringAttributeApplyStep step ≠ Except.ok u) ∧
    stringAttributeApplyStep (Step.attributeName "test")
      = Except.error "cannot apply AttributePathStep tftypes.AttributeName to basetypes.StringType" ∧
    stringAttributeApplyStep (Step.elementKeyInt 1)
      = Except.error "cannot apply AttributePathStep tftypes.ElementKeyInt to basetypes.StringType" ∧
    stringAttributeApplyStep (Step.elementKeyString "test")
      = Except.error "cannot apply AttributePathStep tftypes.ElementKeyString to basetypes.StringType" ∧
    stringAttributeApplyStep (Step.elementKeyValue (Val.strV "test"))
      = Except.error "cannot apply AttributePathStep tftypes.ElementKeyValue to basetypes.StringType" := by
  refine ⟨rfl, ?_, congrArg Except.error (by decide), congrArg Except.error (by decide),
    congrArg Except.error (by decide), congrArg Except.error (by decide)⟩
  intro u h
  simp [stringAttributeApplyStep] at h

/-- Witness for C8 at a concrete input: the by-name step yields no child
result on a string attribute. -/
theorem c8_string_attribute_witness :
    stringAttributeApplyStep (Step.attributeName "test") ≠ Except.ok () :=
  (c8_string_attribute_unsteppable (Step.attributeName "test")).2.1 ()

/-- A lowercase hexadecimal digit, as strconv's escape sequences use them. -/
def hexDigit (n : Nat) : Char :=
  if n < 10 then Char.ofNat (48 + n) else Char.ofNat (87 + n)

/-- Escape of one character inside Go's `strconv.Quote` (the worker behind
the `%q` verb of package `fmt`): a double quote or a backslash gets a
backslash; printable characters stand as themselves; the seven named control
escapes are used for their characters; any other control character (and
delete) becomes a two-digit hex escape. Characters above the ASCII range are
treated as printable here — Go additionally hex-escapes the non-printable
ones among them. -/
def goEscapeChar (c : Char) : List Char :=
  if c = '"' then ['\\', '"']
  else if c = '\\' then ['\\', '\\']
  else if 0x20 ≤ c.toNat ∧ c.toNat ≠ 0x7f then [c]
  else if c = '\n' then ['\\', 'n']
  else if c = '\t' then ['\\', 't']
  else if c = '\r' then ['\\', 'r']
  else if c.toNat = 0x07 then ['\\', 'a']
  else if c.toNat = 0x08 then ['\\', 'b']
  else if c.toNat = 0x0b then ['\\', 'v']
  else if c.toNat = 0x0c then ['\\', 'f']
  else ['\\', 'x', hexDigit (c.toNat / 16), hexDigit (c.toNat % 16)]

/-- Go `fmt`'s `%q` applied to the rendering of a framework path:
`strconv.Quote` — the rendering with each character escaped, wrapped in
double quotes. -/
def goQuote (s : String) : String :=
  "\"" ++ String.mk (s.data.map goEscapeChar).flatten ++ "\""

/-- The `%q` form of a concrete escape-bearing rendering: an embedded double
quote appears backslash-escaped in the diagnostic's detail, as
`strconv.Quote` writes it. -/
theorem c9_escape_example :
    goQuote "test[\"key\"]" = "\"test[\\\"key\\\"]\"" ∧
    goQuote "plain_name" = "\"plain_name\"" := by
  exact ⟨by decide, by decide⟩

end TfFw
